import Mathlib

/-!
Verification of the `vines` transducer field synthesiser and the HIFU
harmonic-cascade demo.

The definitions below are a shallow embedding of
`vines/fields/transducers.py` (functions `bowl_transducer`, `eval_source`,
`normalise_power`) and of the harmonic-cascade loop of
`demo/hifu/transducer_nonlinear.py` (`attenuation`, `k2`, the `xIn`
forcing assignments and the per-harmonic operator application).
Machine floats are modelled by real numbers, complex double arrays by
lists/functions into `ℂ`.  Python's `round` (banker's rounding) and its
substring test `a in s` are modelled exactly.  A latitude-band count of
zero does not raise: the NumPy float division by the Python int `0` only
emits a RuntimeWarning (yielding `inf`), the band loop runs zero times,
and the function returns an empty source set and a zero field.  The one
raising path is an `axis` matching neither re-orientation branch: the
coordinate lists then stay Python lists and the jitted `eval_source`
raises `numba.errors.TypingError` at `x.shape` — modelled by an `Option`
result, where `none` means the call raises instead of returning.
-/

open Real

noncomputable section

/-- Python's built-in `round`: round half to even (banker's rounding),
as applied by `np.int(np.round(...))` in `bowl_transducer`. -/
def pyRound (x : ℝ) : ℤ :=
  if x - ⌊x⌋ < 1/2 then ⌊x⌋
  else if 1/2 < x - ⌊x⌋ then ⌊x⌋ + 1
  else if ⌊x⌋ % 2 = 0 then ⌊x⌋ else ⌊x⌋ + 1

/-- Character-list version of `List.isPrefixOf` for modelling Python's
substring test. -/
def leadsWith : List Char → List Char → Bool
  | [], _ => true
  | _ :: _, [] => false
  | a :: as, b :: bs => a == b && leadsWith as bs

/-- Does `pat` occur as a contiguous sublist of the second argument? -/
def hasInfixCL : List Char → List Char → Bool
  | pat, [] => leadsWith pat []
  | pat, b :: bs => leadsWith pat (b :: bs) || hasInfixCL pat bs

end

/-- Python's `a in s` on strings: `a` is a contiguous substring of `s`
(true in particular when `a` is empty). -/
def pyIn (a s : String) : Bool := hasInfixCL a.data s.data

noncomputable section

/-! ## Embedding of `vines/fields/transducers.py` -/

/-- Code: `theta1 = np.arcsin(aperture_radius / focal_length)`. -/
def theta1 (focal_length aperture_radius : ℝ) : ℝ :=
  Real.arcsin (aperture_radius / focal_length)

/-- Code: `theta2 = np.arcsin(radius / focal_length)`. -/
def theta2 (focal_length radius : ℝ) : ℝ :=
  Real.arcsin (radius / focal_length)

/-- The per-source area element
`a = 2 * np.pi * r**2 * (np.cos(theta1) - np.cos(theta2)) / n_elements`
with `r = 1.0` (the unit sphere used by the tiling). -/
def a_src (focal_length radius aperture_radius : ℝ) (n_elements : ℕ) : ℝ :=
  2 * π * 1 ^ 2 *
    (Real.cos (theta1 focal_length aperture_radius) -
      Real.cos (theta2 focal_length radius)) / n_elements

/-- Code: `M_theta = np.int(np.round((theta2 - theta1) / d))` with `d = np.sqrt(a)`. -/
def Mtheta (focal_length radius aperture_radius : ℝ) (n_elements : ℕ) : ℤ :=
  pyRound ((theta2 focal_length radius - theta1 focal_length aperture_radius) /
    Real.sqrt (a_src focal_length radius aperture_radius n_elements))

/-- Code: `d_theta = (theta2 - theta1) / M_theta`.  When `M_theta = 0` the
NumPy float division only emits a RuntimeWarning and yields `inf`, and
the band loop below then runs zero times, so the value is never
consumed; the model's convention `x / 0 = 0` is likewise never consumed
in that case. -/
def dTheta (focal_length radius aperture_radius : ℝ) (n_elements : ℕ) : ℝ :=
  (theta2 focal_length radius - theta1 focal_length aperture_radius) /
    (Mtheta focal_length radius aperture_radius n_elements : ℝ)

/-- Code: `d_phi = a / d_theta`. -/
def dPhi (focal_length radius aperture_radius : ℝ) (n_elements : ℕ) : ℝ :=
  a_src focal_length radius aperture_radius n_elements /
    dTheta focal_length radius aperture_radius n_elements

/-- Latitude of band `m`: `theta = (theta2 - theta1) * (m + 0.5) / M_theta + theta1`. -/
def bandTheta (focal_length radius aperture_radius : ℝ) (n_elements : ℕ)
    (m : ℕ) : ℝ :=
  (theta2 focal_length radius - theta1 focal_length aperture_radius) *
      ((m : ℝ) + 0.5) / (Mtheta focal_length radius aperture_radius n_elements : ℝ) +
    theta1 focal_length aperture_radius

/-- Code: `M_phi = np.int(np.round(2 * np.pi * np.sin(theta) / d_phi))` for band `m`. -/
def Mphi (focal_length radius aperture_radius : ℝ) (n_elements : ℕ) (m : ℕ) : ℤ :=
  pyRound (2 * π * Real.sin (bandTheta focal_length radius aperture_radius n_elements m) /
    dPhi focal_length radius aperture_radius n_elements)

/-- The source appended for band `m`, azimuthal index `nn`:
`(focal_length*sin(theta)*cos(phi), focal_length*sin(theta)*sin(phi), focal_length*cos(theta))`
with `phi = 2*pi*nn/M_phi`. -/
def srcAt (focal_length radius aperture_radius : ℝ) (n_elements : ℕ)
    (m nn : ℕ) : ℝ × ℝ × ℝ :=
  (focal_length * Real.sin (bandTheta focal_length radius aperture_radius n_elements m) *
      Real.cos (2 * π * (nn : ℝ) / (Mphi focal_length radius aperture_radius n_elements m : ℝ)),
   focal_length * Real.sin (bandTheta focal_length radius aperture_radius n_elements m) *
      Real.sin (2 * π * (nn : ℝ) / (Mphi focal_length radius aperture_radius n_elements m : ℝ)),
   focal_length * Real.cos (bandTheta focal_length radius aperture_radius n_elements m))

/-- The double loop `for m in range(0, M_theta): for n in range(0, M_phi): append(...)`,
collected as one list of `(x, y, z)` triples (Python keeps three parallel lists). -/
def tile (focal_length radius aperture_radius : ℝ) (n_elements : ℕ) :
    List (ℝ × ℝ × ℝ) :=
  ((List.range (Mtheta focal_length radius aperture_radius n_elements).toNat).map
    (fun m => (List.range (Mphi focal_length radius aperture_radius n_elements m).toNat).map
      (fun nn => srcAt focal_length radius aperture_radius n_elements m nn))).flatten

/-- The re-orientation step of `bowl_transducer`:
`if axis in 'z': ... elif axis in 'x': ...` (and otherwise the generated
coordinates are left untouched). -/
def orientSources (axis : String) (focus : ℝ × ℝ × ℝ)
    (src : List (ℝ × ℝ × ℝ)) : List (ℝ × ℝ × ℝ) :=
  if pyIn axis "z" then
    src.map (fun s => (s.1, s.2.1, focus.2.2 - s.2.2))
  else if pyIn axis "x" then
    src.map (fun s => (focus.1 - s.2.2, -s.1, -s.2.1))
  else src

/-- Code: `dist = np.sqrt((points[0,i]-x[j])**2 + (points[1,i]-y[j])**2 + (points[2,i]-z[j])**2)`. -/
def distP (s pt : ℝ × ℝ × ℝ) : ℝ :=
  Real.sqrt ((pt.1 - s.1) ^ 2 + (pt.2.1 - s.2.1) ^ 2 + (pt.2.2 - s.2.2) ^ 2)

/-- One guarded summand of the inner loop of `eval_source`:
`if dist > 1e-3: temp += np.exp(1j*k*dist) / (4*np.pi*dist)`, and no
contribution otherwise. -/
def greenTerm (k : ℂ) (s pt : ℝ × ℝ × ℝ) : ℂ :=
  if 1e-3 < distP s pt then
    Complex.exp (Complex.I * k * (distP s pt : ℂ)) / (4 * (π : ℂ) * (distP s pt : ℂ))
  else 0

/-- The jitted `eval_source`: for each observation point, accumulate the
guarded monopole terms over all sources starting from `temp = 0`. -/
def eval_source (src : List (ℝ × ℝ × ℝ)) (points : List (ℝ × ℝ × ℝ)) (k : ℂ) :
    List ℂ :=
  points.map (fun pt => src.foldl (fun temp s => temp + greenTerm k s pt) 0)

/-- Closed-form sum of the guarded monopole contributions at one point. -/
def sourceSum (k : ℂ) (src : List (ℝ × ℝ × ℝ)) (pt : ℝ × ℝ × ℝ) : ℂ :=
  (src.map (fun s => greenTerm k s pt)).sum

/-- Code: `bowl_transducer(k, focal_length, focus, radius, n_elements, aperture_radius, points, axis)`.
When `axis` matches the `'z'` or `'x'` substring test, the generated
sources are converted to NumPy arrays, re-oriented, and the field `p * a`
is returned — in particular, when `M_theta` rounds to zero (or below) the
band loop runs zero times and the result is an empty source set with an
identically zero field.  For any other axis the coordinate lists stay
Python lists, and the jitted `eval_source` raises
`numba.errors.TypingError` at `x.shape`, so the call raises instead of
returning: modelled by `none`. -/
def bowl_transducer (k : ℂ) (focal_length : ℝ) (focus : ℝ × ℝ × ℝ)
    (radius : ℝ) (n_elements : ℕ) (aperture_radius : ℝ)
    (points : List (ℝ × ℝ × ℝ)) (axis : String) :
    Option (List (ℝ × ℝ × ℝ) × List ℂ) :=
  if pyIn axis "z" || pyIn axis "x" then
    let src := orientSources axis focus (tile focal_length radius aperture_radius n_elements)
    some (src, (eval_source src points k).map
      (fun p => p * ((a_src focal_length radius aperture_radius n_elements : ℝ) : ℂ)))
  else none

/-! ## Embedding of `normalise_power` -/

/-- Code: `np.linspace(a, b, n)`: `n` equally spaced samples from `a` to `b`
inclusive, the `i`-th being `a + (b - a)*i/(n-1)`. -/
def linspaceL (a b : ℝ) (n : ℕ) : List ℝ :=
  (List.range n).map (fun i : ℕ => a + (b - a) * (i : ℝ) / ((n : ℝ) - 1))

/-- Code: `x_location_disk = focal_length - 0.98 * np.sqrt(focal_length**2 - radius**2)`. -/
def x_location_disk (focal_length radius : ℝ) : ℝ :=
  focal_length - 0.98 * Real.sqrt (focal_length ^ 2 - radius ^ 2)

/-- Code: `integral = 2*np.pi*np.sum(np.abs(p_quad)**2 * r_quad)*r_quad_dim/n_quad`
with `n_quad = 500`, `r_quad_dim = radius * 1.0` and
`r_quad = np.linspace(0, r_quad_dim, n_quad)`. -/
def quadIntegral (radius : ℝ) (p_quad : List ℂ) : ℝ :=
  2 * π * ((p_quad.zip (linspaceL 0 (radius * 1.0) 500)).map
      (fun q => Complex.abs q.1 ^ 2 * q.2)).sum * (radius * 1.0) / 500

/-- Code: `p0 = np.sqrt(2*rho*c0*power/integral)`. -/
def p0_of (rho c0 power integral : ℝ) : ℝ :=
  Real.sqrt (2 * rho * c0 * power / integral)

/-- Code: `normalise_power(power, rho, c0, radius, k1, focal_length, focus, n_elements, aperture_radius)`.
The calibration disk points are `(x_location_disk, 0, r_i)` for the 500
linspace samples `r_i`, and the field on them is obtained from
`bowl_transducer(np.real(k1), ..., 'x')`; `none` propagates the
`ZeroDivisionError` case of `bowl_transducer`. -/
def normalise_power (power rho c0 radius : ℝ) (k1 : ℂ) (focal_length : ℝ)
    (focus : ℝ × ℝ × ℝ) (n_elements : ℕ) (aperture_radius : ℝ) : Option ℝ :=
  let r_quad := linspaceL 0 (radius * 1.0) 500
  let points_quad := r_quad.map (fun rr => (x_location_disk focal_length radius, 0, rr))
  (bowl_transducer ((k1.re : ℝ) : ℂ) focal_length focus radius
      n_elements aperture_radius points_quad "x").map
    (fun res => p0_of rho c0 power (quadIntegral radius res.2))

/-- The pressure of the unit-amplitude synthesized field at the `i`-th
calibration-disk sample `(x_location_disk, 0, radius*i/499)`, as produced by
`bowl_transducer` with the real part of `k1` and axis `'x'`. -/
def diskPressure (radius : ℝ) (k1 : ℂ) (focal_length : ℝ) (focus : ℝ × ℝ × ℝ)
    (n_elements : ℕ) (aperture_radius : ℝ) (i : ℕ) : ℂ :=
  sourceSum ((k1.re : ℝ) : ℂ)
      (orientSources "x" focus (tile focal_length radius aperture_radius n_elements))
      (x_location_disk focal_length radius, 0, radius * (i : ℝ) / 499) *
    ((a_src focal_length radius aperture_radius n_elements : ℝ) : ℂ)

/-! ## Embedding of the harmonic cascade of `demo/hifu/transducer_nonlinear.py` -/

/-- Code: `attenuation(f, alpha0, eta) = alpha0 * (f * 1e-6)**eta`. -/
def attenuation (f alpha0 eta : ℝ) : ℝ := alpha0 * (f * 1e-6) ^ eta

/-- The wavenumber of harmonic `i_harm` in the cascade loop:
`f2 = (i_harm + 1) * f1; k2 = 2*np.pi*f2/c + 1j*attenuation(f2, alpha0, eta)`. -/
def k2 (f1 c alpha0 eta : ℝ) (i_harm : ℕ) : ℂ :=
  ((2 * π * (((i_harm : ℝ) + 1) * f1) / c : ℝ) : ℂ) +
    Complex.I * ((attenuation (((i_harm : ℝ) + 1) * f1) alpha0 eta : ℝ) : ℂ)

/-- A voxel field `P[h]` of the demo, flattened: one complex value per voxel. -/
def Grid : Type := ℕ → ℂ

instance : One Grid := ⟨fun _ => 1⟩

instance : Zero Grid := ⟨fun _ => 0⟩

/-- The forcing-field assignment of the cascade loop: the `if/elif` chain
setting `xIn` for `i_harm` in `1..4`; for any other `i_harm` the Python
variable `xIn` silently keeps its value from the previous iteration
(`xPrev`). `omega` is the fundamental angular frequency `2*pi*f1`. -/
def xIn (beta omega rho c : ℝ) (P : ℕ → Grid) (xPrev : Grid) (i_harm : ℕ) : Grid :=
  if i_harm = 1 then
    fun v => ((-2 * beta * omega ^ 2 / (rho * c ^ 4) : ℝ) : ℂ) * (P 0 v * P 0 v)
  else if i_harm = 2 then
    fun v => ((-9 * beta * omega ^ 2 / (rho * c ^ 4) : ℝ) : ℂ) * (P 0 v * P 1 v)
  else if i_harm = 3 then
    fun v => ((-8 * beta * omega ^ 2 / (rho * c ^ 4) : ℝ) : ℂ) *
      (P 1 v * P 1 v + 2 * (P 0 v * P 2 v))
  else if i_harm = 4 then
    fun v => ((-25 * beta * omega ^ 2 / (rho * c ^ 4) : ℝ) : ℂ) *
      (P 0 v * P 3 v + P 1 v * P 2 v)
  else xPrev

/-- Modelled from the spec: the external operator routines
`volume_potential` (KernelAssembler, in `vines/operators/acoustic_operators.py`),
`circulant_embed_fftw` (CirculantEmbedder, in `vines/precondition/threeD.py`)
and `mvp_volume_potential` (the generic-contrast OperatorMatVec, in
`vines/operators/acoustic_matvecs.py`) are not among the provided source
files; they are abstracted here as opaque deterministic functions.
`mvp_volume_potential` takes the input field, a circulant embedding, the
inclusion mask `idx` and the contrast field `Mr`. -/
structure VolOps (K C : Type) where
  volume_potential : ℂ → K
  circulant_embed_fftw : K → C
  mvp_volume_potential : Grid → C → (ℕ → Bool) → Grid → Grid

/-- The cascade loop `for i_harm in range(1, n_harm)`, run for `m` iterations:
state after iteration `m` is the harmonic stack `P` (with `P[0]` the
fundamental and `P[j] = 0` for untouched slots, as allocated by `np.zeros`)
together with the current value of the loop variable `xIn`.  Each iteration
assembles `volume_potential` at that harmonic's own wavenumber `k2`,
embeds it with `circulant_embed_fftw`, builds the forcing field, and stores
`mvp_volume_potential(xIn, circ_op, idx, Mr)` with `idx = np.ones(...,bool)`
and `Mr = np.ones(..., complex)` into `P[i_harm]`. -/
def cascadeIter {K C : Type} (ops : VolOps K C) (beta rho c f1 alpha0 eta : ℝ)
    (p_fund : Grid) : ℕ → (ℕ → Grid) × Grid
  | 0 => (fun j => if j = 0 then p_fund else 0, 0)
  | m + 1 =>
      let s := cascadeIter ops beta rho c f1 alpha0 eta p_fund m
      let i_harm := m + 1
      let circ := ops.circulant_embed_fftw (ops.volume_potential (k2 f1 c alpha0 eta i_harm))
      let xin := xIn beta (2 * π * f1) rho c s.1 s.2 i_harm
      (Function.update s.1 i_harm (ops.mvp_volume_potential xin circ (fun _ => true) 1), xin)

/-- Modelled from the spec (claim wording): the per-source area element of
the physical bowl surface, i.e. the spherical-cap band of the sphere of
radius `focal_length` divided by the requested source count.  This is the
area weight the specification describes; the code's `a_src` uses the unit
sphere instead. -/
def bowlCapAreaPerSource (focal_length radius aperture_radius : ℝ)
    (n_elements : ℕ) : ℝ :=
  2 * π * focal_length ^ 2 *
    (Real.cos (theta1 focal_length aperture_radius) -
      Real.cos (theta2 focal_length radius)) / n_elements

/-- A trivial instantiation of the external operator routines, used to
exercise the cascade lemmas on concrete inputs. -/
def trivialOps : VolOps Unit Unit :=
  ⟨fun _ => (), fun _ => (), fun x _ _ _ => x⟩

end

/-! ## General helper lemmas -/

lemma foldl_add_eq {α : Type} (f : α → ℂ) :
    ∀ (l : List α) (init : ℂ),
      l.foldl (fun temp s => temp + f s) init = init + (l.map f).sum := by
  intro l
  induction l with
  | nil => intro init; simp
  | cons a as ih =>
      intro init
      simp only [List.foldl_cons, List.map_cons, List.sum_cons]
      rw [ih]
      ring

lemma eval_source_eq (src points : List (ℝ × ℝ × ℝ)) (k : ℂ) :
    eval_source src points k = points.map (fun pt => sourceSum k src pt) := by
  unfold eval_source sourceSum
  refine List.map_congr_left (fun pt _ => ?_)
  rw [foldl_add_eq, zero_add]

lemma bowl_transducer_some (k : ℂ) (F : ℝ) (focus : ℝ × ℝ × ℝ) (R : ℝ)
    (n : ℕ) (ap : ℝ) (points : List (ℝ × ℝ × ℝ)) (axis : String)
    (haxis : pyIn axis "z" = true ∨ pyIn axis "x" = true) :
    bowl_transducer k F focus R n ap points axis =
      some (orientSources axis focus (tile F R ap n),
        points.map (fun pt =>
          sourceSum k (orientSources axis focus (tile F R ap n)) pt *
            ((a_src F R ap n : ℝ) : ℂ))) := by
  unfold bowl_transducer
  have hcond : (pyIn axis "z" || pyIn axis "x") = true := by
    cases haxis with
    | inl h => simp [h]
    | inr h => simp [h]
  rw [if_pos hcond]
  dsimp only
  rw [eval_source_eq, List.map_map]
  rfl

lemma xIn_one (beta omega rho c : ℝ) (P : ℕ → Grid) (xp : Grid) :
    xIn beta omega rho c P xp 1 =
      fun v => ((-2 * beta * omega ^ 2 / (rho * c ^ 4) : ℝ) : ℂ) * (P 0 v * P 0 v) := rfl

lemma xIn_two (beta omega rho c : ℝ) (P : ℕ → Grid) (xp : Grid) :
    xIn beta omega rho c P xp 2 =
      fun v => ((-9 * beta * omega ^ 2 / (rho * c ^ 4) : ℝ) : ℂ) * (P 0 v * P 1 v) := rfl

lemma xIn_three (beta omega rho c : ℝ) (P : ℕ → Grid) (xp : Grid) :
    xIn beta omega rho c P xp 3 =
      fun v => ((-8 * beta * omega ^ 2 / (rho * c ^ 4) : ℝ) : ℂ) *
        (P 1 v * P 1 v + 2 * (P 0 v * P 2 v)) := rfl

lemma xIn_four (beta omega rho c : ℝ) (P : ℕ → Grid) (xp : Grid) :
    xIn beta omega rho c P xp 4 =
      fun v => ((-25 * beta * omega ^ 2 / (rho * c ^ 4) : ℝ) : ℂ) *
        (P 0 v * P 3 v + P 1 v * P 2 v) := rfl

lemma range_map_sum (f : ℕ → ℝ) : ∀ n : ℕ,
    ((List.range n).map f).sum = ∑ i ∈ Finset.range n, f i := by
  intro n
  induction n with
  | zero => simp
  | succ m ih =>
      rw [List.range_succ, List.map_append, List.sum_append, Finset.sum_range_succ, ih]
      simp

lemma zip_replicate_eq {α β : Type} (c : α) :
    ∀ (l : List β), (List.replicate l.length c).zip l = l.map (fun x => (c, x)) := by
  intro l
  induction l with
  | nil => rfl
  | cons b bs ih =>
      simp only [List.length_cons, List.replicate_succ, List.zip_cons_cons, List.map_cons]
      rw [ih]

/-! ## Claim theorems -/

/-- C6.  Singularity guard of `eval_source`: every source-observation
contribution is either exactly zero (whenever the distance is at or below
the `1e-3` threshold) or a division by a provably nonzero denominator
`4*pi*dist`; no division by zero and no error branch is ever reachable. -/
theorem eval_source_singularity_guard (k : ℂ) (s pt : ℝ × ℝ × ℝ) :
    (distP s pt ≤ 1e-3 ∧ greenTerm k s pt = 0) ∨
    (1e-3 < distP s pt ∧ (4 * (π : ℂ) * (distP s pt : ℂ)) ≠ 0 ∧
      greenTerm k s pt =
        Complex.exp (Complex.I * k * (distP s pt : ℂ)) /
          (4 * (π : ℂ) * (distP s pt : ℂ))) := by
  by_cases h : 1e-3 < distP s pt
  · refine Or.inr ⟨h, ?_, by rw [greenTerm, if_pos h]⟩
    have hd : (distP s pt : ℂ) ≠ 0 := by
      exact_mod_cast Complex.ofReal_ne_zero.mpr (by positivity)
    have hπ : (π : ℂ) ≠ 0 := Complex.ofReal_ne_zero.mpr Real.pi_ne_zero
    exact mul_ne_zero (mul_ne_zero (by norm_num) hπ) hd
  · exact Or.inl ⟨not_lt.mp h, by rw [greenTerm, if_neg h]⟩

lemma cascadeIter_untouched {K C : Type} (ops : VolOps K C)
    (beta rho c f1 alpha0 eta : ℝ) (p_fund : Grid) :
    ∀ (m j : ℕ), m < j →
      (cascadeIter ops beta rho c f1 alpha0 eta p_fund m).1 j = 0 := by
  intro m
  induction m with
  | zero =>
      intro j hj
      simp only [cascadeIter]
      rw [if_neg (by omega)]
  | succ mm ih =>
      intro j hj
      simp only [cascadeIter]
      rw [Function.update_noteq (by omega : j ≠ mm + 1)]
      exact ih j (by omega)

/-- C2.  In the harmonic cascade, the forcing field computed at loop index
`h` (for the supported harmonics `1 ≤ h ≤ 4`) is exactly the enumerated
quadratic combination of the previously computed stack entries; that
combination reads only entries `P j` with `j < h` (replacing all entries
of index `≥ h` and the stale `xIn` carry leaves the forcing unchanged);
and at the moment the forcing for `h` is built, every stack entry of index
`≥ h` is still the initial zero field, so no harmonic's value can depend
on a harmonic of equal or higher index. -/
theorem harmonic_forcing_strictly_lower {K C : Type} (ops : VolOps K C)
    (beta rho c f1 alpha0 eta : ℝ) (p_fund : Grid) (h : ℕ)
    (h1 : 1 ≤ h) (h4 : h ≤ 4) :
    (cascadeIter ops beta rho c f1 alpha0 eta p_fund h).2 =
      xIn beta (2 * π * f1) rho c
        (cascadeIter ops beta rho c f1 alpha0 eta p_fund (h - 1)).1
        (cascadeIter ops beta rho c f1 alpha0 eta p_fund (h - 1)).2 h ∧
    (∀ (P Q : ℕ → Grid) (xp xq : Grid), (∀ j, j < h → P j = Q j) →
      xIn beta (2 * π * f1) rho c P xp h = xIn beta (2 * π * f1) rho c Q xq h) ∧
    ∀ j, h ≤ j → (cascadeIter ops beta rho c f1 alpha0 eta p_fund (h - 1)).1 j = 0 := by
  refine ⟨?_, ?_, fun j hj =>
    cascadeIter_untouched ops beta rho c f1 alpha0 eta p_fund (h - 1) j (by omega)⟩
  · obtain ⟨m, rfl⟩ : ∃ m, h = m + 1 := ⟨h - 1, (Nat.succ_pred_eq_of_pos h1).symm⟩
    simp [cascadeIter]
  · intro P Q xp xq hagree
    interval_cases h
    · rw [xIn_one, xIn_one]
      funext v
      rw [hagree 0 (by norm_num)]
    · rw [xIn_two, xIn_two]
      funext v
      rw [hagree 0 (by norm_num), hagree 1 (by norm_num)]
    · rw [xIn_three, xIn_three]
      funext v
      rw [hagree 0 (by norm_num), hagree 1 (by norm_num), hagree 2 (by norm_num)]
    · rw [xIn_four, xIn_four]
      funext v
      rw [hagree 0 (by norm_num), hagree 1 (by norm_num), hagree 2 (by norm_num),
        hagree 3 (by norm_num)]

/-- Witness for `harmonic_forcing_strictly_lower` at `h = 1` with the
trivial operator instantiation. -/
theorem harmonic_forcing_strictly_lower_witness :
    (1 ≤ 1 ∧ 1 ≤ 4) ∧
    ((cascadeIter trivialOps 1 1 1 1 1 1 0 1).2 =
      xIn 1 (2 * π * 1) 1 1
        (cascadeIter trivialOps 1 1 1 1 1 1 0 (1 - 1)).1
        (cascadeIter trivialOps 1 1 1 1 1 1 0 (1 - 1)).2 1 ∧
    (∀ (P Q : ℕ → Grid) (xp xq : Grid), (∀ j, j < 1 → P j = Q j) →
      xIn 1 (2 * π * 1) 1 1 P xp 1 = xIn 1 (2 * π * 1) 1 1 Q xq 1) ∧
    ∀ j, 1 ≤ j → (cascadeIter trivialOps 1 1 1 1 1 1 0 (1 - 1)).1 j = 0) :=
  ⟨⟨le_refl 1, by norm_num⟩,
    harmonic_forcing_strictly_lower trivialOps 1 1 1 1 1 1 0 1 (le_refl 1) (by norm_num)⟩

/-- C7.  Each cascade iteration `h ≥ 1` stores into `P[h]` the result of
applying `mvp_volume_potential` with the all-true mask and all-ones
contrast (the unmasked generic-contrast operator) to that iteration's
forcing field, using a circulant embedding freshly built from the kernel
assembled at that harmonic's own wavenumber `k2(h)`; the wavenumber
satisfies the attenuated formula and is distinct for distinct harmonics,
so no kernel or embedding can be shared between two harmonics. -/
theorem cascade_fresh_wavenumber {K C : Type} (ops : VolOps K C)
    (beta rho c f1 alpha0 eta : ℝ) (p_fund : Grid) (h : ℕ)
    (h1 : 1 ≤ h) (hf1 : 0 < f1) (hc : 0 < c) :
    (cascadeIter ops beta rho c f1 alpha0 eta p_fund h).1 h =
      ops.mvp_volume_potential (cascadeIter ops beta rho c f1 alpha0 eta p_fund h).2
        (ops.circulant_embed_fftw (ops.volume_potential (k2 f1 c alpha0 eta h)))
        (fun _ => true) 1 ∧
    k2 f1 c alpha0 eta h =
      ((2 * π * (((h : ℝ) + 1) * f1) / c : ℝ) : ℂ) +
        Complex.I * ((alpha0 * ((((h : ℝ) + 1) * f1) * 1e-6) ^ eta : ℝ) : ℂ) ∧
    ∀ h' : ℕ, h ≠ h' → k2 f1 c alpha0 eta h ≠ k2 f1 c alpha0 eta h' := by
  refine ⟨?_, rfl, ?_⟩
  · obtain ⟨m, rfl⟩ : ∃ m, h = m + 1 := ⟨h - 1, (Nat.succ_pred_eq_of_pos h1).symm⟩
    simp [cascadeIter, Function.update_same]
  · intro h' hne heq
    have hre := congrArg Complex.re heq
    simp only [k2, Complex.add_re, Complex.ofReal_re, Complex.mul_re, Complex.I_re,
      Complex.I_im, Complex.ofReal_im, zero_mul, one_mul, mul_zero, sub_zero,
      add_zero, sub_self] at hre
    have hfac : (0 : ℝ) < 2 * π * f1 / c := by positivity
    have hcast : ((h : ℝ) + 1) = ((h' : ℝ) + 1) := by
      have e : ((h : ℝ) + 1) * (2 * π * f1 / c) = ((h' : ℝ) + 1) * (2 * π * f1 / c) := by
        calc ((h : ℝ) + 1) * (2 * π * f1 / c)
            = 2 * π * (((h : ℝ) + 1) * f1) / c := by ring
          _ = 2 * π * (((h' : ℝ) + 1) * f1) / c := hre
          _ = ((h' : ℝ) + 1) * (2 * π * f1 / c) := by ring
      exact mul_right_cancel₀ (ne_of_gt hfac) e
    have : (h : ℝ) = (h' : ℝ) := by linarith
    exact hne (Nat.cast_injective this)

/-- Witness for `cascade_fresh_wavenumber` at `h = 1` with the trivial
operator instantiation. -/
theorem cascade_fresh_wavenumber_witness :
    1 ≤ 1 ∧ (0 : ℝ) < 1 ∧
    ((cascadeIter trivialOps 1 1 1 1 1 1 0 1).1 1 =
      trivialOps.mvp_volume_potential (cascadeIter trivialOps 1 1 1 1 1 1 0 1).2
        (trivialOps.circulant_embed_fftw (trivialOps.volume_potential (k2 1 1 1 1 1)))
        (fun _ => true) 1 ∧
    k2 1 1 1 1 1 =
      ((2 * π * ((((1 : ℕ) : ℝ) + 1) * 1) / 1 : ℝ) : ℂ) +
        Complex.I * ((1 * (((((1 : ℕ) : ℝ) + 1) * 1) * 1e-6) ^ (1 : ℝ) : ℝ) : ℂ) ∧
    ∀ h' : ℕ, 1 ≠ h' → k2 1 1 1 1 1 ≠ k2 1 1 1 1 h') :=
  ⟨le_refl 1, one_pos,
    cascade_fresh_wavenumber trivialOps 1 1 1 1 1 1 0 1 (le_refl 1) one_pos one_pos⟩

/-- C8.  `normalise_power` feeds only `np.real(k1)` to `bowl_transducer`:
its result depends on the wavenumber solely through the real part (any
imaginary attenuation component is ignored), and for a real wavenumber it
coincides with the value computed from the wavenumber itself. -/
theorem normalise_power_ignores_attenuation (power rho c0 radius : ℝ)
    (ka kb : ℂ) (focal_length : ℝ) (focus : ℝ × ℝ × ℝ) (n_elements : ℕ)
    (aperture_radius : ℝ) (hre : ka.re = kb.re) :
    normalise_power power rho c0 radius ka focal_length focus n_elements aperture_radius =
      normalise_power power rho c0 radius kb focal_length focus n_elements aperture_radius ∧
    normalise_power power rho c0 radius ka focal_length focus n_elements aperture_radius =
      normalise_power power rho c0 radius ((ka.re : ℝ) : ℂ) focal_length focus
        n_elements aperture_radius := by
  constructor
  · unfold normalise_power
    rw [hre]
  · unfold normalise_power
    rw [Complex.ofReal_re]

/-- Witness for `normalise_power_ignores_attenuation` with the attenuated
wavenumber `1 + 2i` against the unattenuated `1`. -/
theorem normalise_power_ignores_attenuation_witness :
    (1 + 2 * Complex.I).re = ((1 : ℂ)).re ∧
    (normalise_power 1 1 1 1 (1 + 2 * Complex.I) 1 (0, 0, 0) 1 0 =
      normalise_power 1 1 1 1 1 1 (0, 0, 0) 1 0 ∧
    normalise_power 1 1 1 1 (1 + 2 * Complex.I) 1 (0, 0, 0) 1 0 =
      normalise_power 1 1 1 1 (((1 + 2 * Complex.I).re : ℝ) : ℂ) 1 (0, 0, 0) 1 0) := by
  have hre : (1 + 2 * Complex.I).re = ((1 : ℂ)).re := by simp
  exact ⟨hre, normalise_power_ignores_attenuation 1 1 1 1 (1 + 2 * Complex.I) 1 1
    (0, 0, 0) 1 0 hre⟩

/-! ## Quadrature lemmas for the power calibration -/

lemma zip_replicate_count {α β : Type} (c : α) (l : List β) (n : ℕ)
    (h : l.length = n) :
    (List.replicate n c).zip l = l.map (fun x => (c, x)) := by
  subst h
  exact zip_replicate_eq c l

lemma linspaceL_eq (R : ℝ) :
    linspaceL 0 (R * 1.0) 500 = (List.range 500).map (fun i : ℕ => R * (i : ℝ) / 499) := by
  unfold linspaceL
  refine List.map_congr_left (fun i _ => ?_)
  push_cast
  norm_num

lemma quadIntegral_nonneg (R : ℝ) (pq : List ℂ) (hR : 0 ≤ R) :
    0 ≤ quadIntegral R pq := by
  unfold quadIntegral
  have hsum : 0 ≤ ((pq.zip (linspaceL 0 (R * 1.0) 500)).map
      (fun q => Complex.abs q.1 ^ 2 * q.2)).sum := by
    apply List.sum_nonneg
    intro x hx
    simp only [List.mem_map] at hx
    obtain ⟨⟨p, r⟩, hq, rfl⟩ := hx
    have h2 : r ∈ linspaceL 0 (R * 1.0) 500 := (List.of_mem_zip hq).2
    rw [linspaceL_eq] at h2
    simp only [List.mem_map, List.mem_range] at h2
    obtain ⟨i, _, hqi⟩ := h2
    have hr : 0 ≤ r := by
      rw [← hqi]
      exact div_nonneg (mul_nonneg hR (Nat.cast_nonneg i)) (by norm_num)
    exact mul_nonneg (by positivity) hr
  have h2π : (0 : ℝ) ≤ 2 * π := by positivity
  apply div_nonneg _ (by norm_num)
  apply mul_nonneg (mul_nonneg h2π hsum)
  nlinarith

/-- C5.  Power-calibration round trip: for a nonnegative target power and
any calibration field whose radial quadrature integral is nonzero, the
amplitude `p0` returned by the `normalise_power` formula satisfies
`p0^2 * integral / (2*rho*c0) = power` exactly, i.e. scaling the field by
`p0` makes the quadrature-integrated radiated power equal the target. -/
theorem power_round_trip (rho c0 power R : ℝ) (pq : List ℂ)
    (hrho : 0 < rho) (hc0 : 0 < c0) (hpow : 0 ≤ power) (hR : 0 ≤ R)
    (hI : quadIntegral R pq ≠ 0) :
    p0_of rho c0 power (quadIntegral R pq) ^ 2 * quadIntegral R pq / (2 * rho * c0)
      = power := by
  have hpos : 0 < quadIntegral R pq :=
    lt_of_le_of_ne (quadIntegral_nonneg R pq hR) (Ne.symm hI)
  unfold p0_of
  rw [Real.sq_sqrt (by positivity)]
  rw [div_mul_cancel₀ _ (ne_of_gt hpos)]
  exact mul_div_cancel_left₀ power (by positivity)

lemma quadIntegral_replicate_one : quadIntegral 1 (List.replicate 500 1) = π := by
  have hlen : (linspaceL 0 ((1 : ℝ) * 1.0) 500).length = 500 := by
    unfold linspaceL
    rw [List.length_map, List.length_range]
  unfold quadIntegral
  rw [zip_replicate_count (1 : ℂ) (linspaceL 0 ((1 : ℝ) * 1.0) 500) 500 hlen,
    List.map_map, linspaceL_eq, List.map_map, range_map_sum]
  simp only [Function.comp_apply, map_one, one_pow, one_mul]
  have h3 : (∑ i ∈ Finset.range 500, i) = 124750 := by
    have := Finset.sum_range_id_mul_two 500
    omega
  have hsum : ∑ i ∈ Finset.range 500, ((i : ℝ) / 499) = 250 := by
    rw [← Finset.sum_div]
    have h2 : (∑ i ∈ Finset.range 500, (i : ℝ)) = 124750 := by
      rw [← Nat.cast_sum, h3]
      norm_num
    rw [h2]
    norm_num
  rw [hsum]
  ring

/-! ## Characterisation of the Python substring test on one-character strings -/

lemma pyIn_z_false (a : String) (h1 : a ≠ "") (h2 : a ≠ "z") :
    pyIn a "z" = false := by
  obtain ⟨l⟩ := a
  match l, h1, h2 with
  | [], h1, _ => exact absurd rfl h1
  | [c], _, h2 =>
      have hc : c ≠ 'z' := fun hce => h2 (by rw [hce])
      simp [pyIn, hasInfixCL, leadsWith, hc]
  | c :: c' :: cs, _, _ =>
      simp [pyIn, hasInfixCL, leadsWith]

lemma pyIn_x_false (a : String) (h1 : a ≠ "") (h2 : a ≠ "x") :
    pyIn a "x" = false := by
  obtain ⟨l⟩ := a
  match l, h1, h2 with
  | [], h1, _ => exact absurd rfl h1
  | [c], _, h2 =>
      have hc : c ≠ 'x' := fun hce => h2 (by rw [hce])
      simp [pyIn, hasInfixCL, leadsWith, hc]
  | c :: c' :: cs, _, _ =>
      simp [pyIn, hasInfixCL, leadsWith]

/-! ## Orientation and tiling lemmas -/

lemma orientSources_x_eq (focus : ℝ × ℝ × ℝ) (src : List (ℝ × ℝ × ℝ)) :
    orientSources "x" focus src =
      src.map (fun s => (focus.1 - s.2.2, -s.1, -s.2.1)) := rfl

lemma orientSources_empty_eq (focus : ℝ × ℝ × ℝ) (src : List (ℝ × ℝ × ℝ)) :
    orientSources "" focus src =
      src.map (fun s => (s.1, s.2.1, focus.2.2 - s.2.2)) := rfl

lemma tile_mem (F R ap : ℝ) (n : ℕ) (t : ℝ × ℝ × ℝ)
    (ht : t ∈ tile F R ap n) : ∃ m nn : ℕ, t = srcAt F R ap n m nn := by
  unfold tile at ht
  simp only [List.mem_flatten, List.mem_map, List.mem_range] at ht
  obtain ⟨l, ⟨m, _, rfl⟩, htl⟩ := ht
  simp only [List.mem_map, List.mem_range] at htl
  obtain ⟨nn, _, rfl⟩ := htl
  exact ⟨m, nn, rfl⟩

/-- C3 (amended).  The calibration disk of `normalise_power` sits on the
bowl axis at `x = focal_length - 0.98*sqrt(focal_length^2 - radius^2)`:
strictly before the geometric focus (which is at distance `focal_length`
from every generated bowl-surface source), but just 2% of the
rim-plane-to-focus distance beyond the bowl's rim plane — i.e. close to the
bowl opening, not (in general) close to the focus. -/
theorem calibration_disk_location (F R : ℝ) (h0 : 0 < R) (hRF : R < F) :
    F - Real.sqrt (F ^ 2 - R ^ 2) < x_location_disk F R ∧
    x_location_disk F R < F ∧
    F - x_location_disk F R = 0.98 * Real.sqrt (F ^ 2 - R ^ 2) ∧
    ∀ (ap : ℝ) (n : ℕ) (s : ℝ × ℝ × ℝ),
      s ∈ orientSources "x" (F, 0, 0) (tile F R ap n) → distP s (F, 0, 0) = F := by
  have hF : 0 < F := h0.trans hRF
  have hsq : 0 < F ^ 2 - R ^ 2 := by nlinarith
  have hs : 0 < Real.sqrt (F ^ 2 - R ^ 2) := Real.sqrt_pos.mpr hsq
  refine ⟨?_, ?_, ?_, ?_⟩
  · unfold x_location_disk
    linarith
  · unfold x_location_disk
    linarith
  · unfold x_location_disk
    ring
  · intro ap n s hmem
    rw [orientSources_x_eq] at hmem
    simp only [List.mem_map] at hmem
    obtain ⟨t, ht, rfl⟩ := hmem
    obtain ⟨m, nn, rfl⟩ := tile_mem F R ap n t ht
    unfold srcAt distP
    dsimp only
    set θ := bandTheta F R ap n m with hθ
    set φ := 2 * π * (nn : ℝ) / (Mphi F R ap n m : ℝ) with hφ
    have h1 : Real.cos φ ^ 2 + Real.sin φ ^ 2 = 1 := Real.cos_sq_add_sin_sq φ
    have h2 : Real.cos θ ^ 2 + Real.sin θ ^ 2 = 1 := Real.cos_sq_add_sin_sq θ
    have hexp : (F - (F - F * Real.cos θ)) ^ 2 + (0 - -(F * Real.sin θ * Real.cos φ)) ^ 2 +
        (0 - -(F * Real.sin θ * Real.sin φ)) ^ 2 =
        F ^ 2 * (Real.cos θ ^ 2 + Real.sin θ ^ 2 * (Real.cos φ ^ 2 + Real.sin φ ^ 2)) := by
      ring
    rw [hexp, h1, mul_one, h2, mul_one, Real.sqrt_sq hF.le]

/-- Counterexample for C3 as stated: with focal length 5 and outer radius 3
the disk sits at `x = 1.08`, which is strictly before the focus at `x = 5`
but much closer to the bowl apex plane `x = 0` than to the focus — it is
not "close" to the focal distance. -/
theorem calibration_disk_near_focus_cex :
    x_location_disk 5 3 = 1.08 ∧
    x_location_disk 5 3 < 5 ∧
    ¬ (5 - x_location_disk 5 3 < x_location_disk 5 3 - 0) := by
  have h16 : Real.sqrt ((5 : ℝ) ^ 2 - 3 ^ 2) = 4 := by
    rw [show ((5 : ℝ) ^ 2 - 3 ^ 2) = 4 ^ 2 by norm_num]
    exact Real.sqrt_sq (by norm_num)
  have hx : x_location_disk 5 3 = 1.08 := by
    unfold x_location_disk
    rw [h16]
    norm_num
  refine ⟨hx, ?_, ?_⟩ <;> rw [hx] <;> norm_num

/-- Witness for `calibration_disk_location` at focal length 5, radius 3. -/
theorem calibration_disk_location_witness :
    (0 : ℝ) < 3 ∧ (3 : ℝ) < 5 ∧
    ((5 : ℝ) - Real.sqrt (5 ^ 2 - 3 ^ 2) < x_location_disk 5 3 ∧
      x_location_disk 5 3 < 5 ∧
      (5 : ℝ) - x_location_disk 5 3 = 0.98 * Real.sqrt (5 ^ 2 - 3 ^ 2) ∧
      ∀ (ap : ℝ) (n : ℕ) (s : ℝ × ℝ × ℝ),
        s ∈ orientSources "x" (5, 0, 0) (tile 5 3 ap n) → distP s (5, 0, 0) = 5) :=
  ⟨by norm_num, by norm_num, calibration_disk_location 5 3 (by norm_num) (by norm_num)⟩

/-- Witness for `power_round_trip`: the constant unit field on a unit disk
has quadrature integral `pi` and the round trip returns the unit power. -/
theorem power_round_trip_witness :
    (0 : ℝ) < 1 ∧ (0 : ℝ) ≤ 1 ∧ quadIntegral 1 (List.replicate 500 1) ≠ 0 ∧
    p0_of 1 1 1 (quadIntegral 1 (List.replicate 500 1)) ^ 2 *
        quadIntegral 1 (List.replicate 500 1) / (2 * 1 * 1) = 1 := by
  have hI : quadIntegral 1 (List.replicate 500 1) ≠ 0 := by
    rw [quadIntegral_replicate_one]
    exact Real.pi_ne_zero
  exact ⟨one_pos, zero_le_one, hI,
    power_round_trip 1 1 1 1 (List.replicate 500 1) one_pos one_pos zero_le_one
      zero_le_one hI⟩

/-- C9.  `bowl_transducer` never validates `axis`: for any axis string
other than `"z"`, `"x"` and `""` neither re-orientation branch fires, so
the orientation step silently leaves the generated source coordinates
untranslated (never moved toward the focus) and raises no dedicated
validation error; the failure only surfaces downstream, when the jitted
`eval_source` receives plain Python lists and raises a generic numba
`TypingError` (the `none` result).  And because the branch test is Python
substring membership, the empty string selects the `'z'` orientation. -/
theorem bowl_axis_unvalidated (axis : String) (h1 : axis ≠ "z") (h2 : axis ≠ "x")
    (h3 : axis ≠ "") (k : ℂ) (F : ℝ) (focus : ℝ × ℝ × ℝ) (R : ℝ) (n : ℕ) (ap : ℝ)
    (points : List (ℝ × ℝ × ℝ)) :
    orientSources axis focus (tile F R ap n) = tile F R ap n ∧
    bowl_transducer k F focus R n ap points axis = none ∧
    orientSources "" focus (tile F R ap n) =
      (tile F R ap n).map (fun s => (s.1, s.2.1, focus.2.2 - s.2.2)) := by
  have hoz : pyIn axis "z" = false := pyIn_z_false axis h3 h1
  have hox : pyIn axis "x" = false := pyIn_x_false axis h3 h2
  have horient : orientSources axis focus (tile F R ap n) = tile F R ap n := by
    unfold orientSources
    rw [hoz, hox]
    simp
  refine ⟨horient, ?_, orientSources_empty_eq focus (tile F R ap n)⟩
  unfold bowl_transducer
  rw [hoz, hox]
  simp

/-- Witness for `bowl_axis_unvalidated` with the unsupported axis `"y"`. -/
theorem bowl_axis_unvalidated_witness :
    ("y" : String) ≠ "z" ∧ ("y" : String) ≠ "x" ∧ ("y" : String) ≠ "" ∧
    (orientSources "y" (0, 0, 0) (tile 1 1 0 1) = tile 1 1 0 1 ∧
    bowl_transducer 0 1 (0, 0, 0) 1 1 0 [] "y" = none ∧
    orientSources "" (0, 0, 0) (tile 1 1 0 1) =
      (tile 1 1 0 1).map (fun s => (s.1, s.2.1, (0, (0 : ℝ), (0 : ℝ)).2.2 - s.2.2))) :=
  ⟨by decide, by decide, by decide,
    bowl_axis_unvalidated "y" (by decide) (by decide) (by decide) 0 1 (0, 0, 0) 1 1 0 []⟩

/-! ## Concrete evaluation: a thin cap whose latitude-band count rounds to zero -/

lemma theta1_c10 : theta1 1 (Real.sin (π / 3)) = π / 3 := by
  unfold theta1
  rw [div_one]
  exact Real.arcsin_sin (by linarith [Real.pi_pos]) (by linarith [Real.pi_pos])

lemma theta2_c10 : theta2 1 1 = π / 2 := by
  unfold theta2
  norm_num [Real.arcsin_one]

lemma a_src_c10 : a_src 1 1 (Real.sin (π / 3)) 1 = π := by
  unfold a_src
  rw [theta1_c10, theta2_c10, Real.cos_pi_div_three, Real.cos_pi_div_two]
  push_cast
  ring

lemma Mtheta_c10 : Mtheta 1 1 (Real.sin (π / 3)) 1 = 0 := by
  unfold Mtheta
  rw [theta1_c10, theta2_c10, a_src_c10]
  have hsp : 0 < Real.sqrt π := Real.sqrt_pos.mpr Real.pi_pos
  set v := (π / 2 - π / 3) / Real.sqrt π with hv
  have hv0 : 0 ≤ v := by
    apply div_nonneg _ hsp.le
    linarith [Real.pi_pos]
  have hvlt : v < 1 / 2 := by
    rw [hv, div_lt_iff hsp]
    have h3 : π / 3 < Real.sqrt π := by
      apply (Real.lt_sqrt (by positivity)).mpr
      nlinarith [Real.pi_lt_315, Real.pi_pos]
    linarith
  have hfloor : ⌊v⌋ = 0 := by
    rw [Int.floor_eq_zero_iff, Set.mem_Ico]
    exact ⟨hv0, by linarith⟩
  unfold pyRound
  rw [hfloor, Int.cast_zero, sub_zero, if_pos hvlt]

lemma orientSources_nil (axis : String) (focus : ℝ × ℝ × ℝ) :
    orientSources axis focus [] = [] := by
  unfold orientSources
  split
  · simp
  · split
    · simp
    · rfl

lemma tile_c10 : tile 1 1 (Real.sin (π / 3)) 1 = [] := by
  unfold tile
  rw [Mtheta_c10]
  rfl

/-- C10 (amended).  The latitude-band count
`M_theta = round((theta2-theta1)/sqrt(a))` does round to zero on valid
inputs (here: a hemisphere bowl with aperture `sin(pi/3)` times the focal
length and a single requested source), but the subsequent division
`(theta2 - theta1)/M_theta` is a NumPy float divided by the Python int 0,
which only emits a RuntimeWarning and yields `inf`; the band loop then
runs zero times, and `bowl_transducer` returns an empty source set and an
identically zero field rather than raising. -/
theorem mtheta_zero_empty_tiling (k : ℂ) (F : ℝ) (focus : ℝ × ℝ × ℝ) (R : ℝ)
    (n : ℕ) (ap : ℝ) (points : List (ℝ × ℝ × ℝ)) (axis : String)
    (haxis : pyIn axis "z" = true ∨ pyIn axis "x" = true)
    (hM : Mtheta F R ap n = 0) :
    tile F R ap n = [] ∧
    bowl_transducer k F focus R n ap points axis =
      some ([], points.map (fun _ => 0)) := by
  have htile : tile F R ap n = [] := by
    unfold tile
    rw [hM]
    rfl
  refine ⟨htile, ?_⟩
  rw [bowl_transducer_some k F focus R n ap points axis haxis, htile,
    orientSources_nil axis focus]
  have hmap : points.map (fun pt =>
      sourceSum k [] pt * ((a_src F R ap n : ℝ) : ℂ)) = points.map (fun _ => 0) :=
    List.map_congr_left (fun pt _ => by simp [sourceSum])
  rw [hmap]

/-- Witness for `mtheta_zero_empty_tiling` at the concrete zero-rounding
input. -/
theorem mtheta_zero_empty_tiling_witness :
    (pyIn "x" "z" = true ∨ pyIn "x" "x" = true) ∧
    Mtheta 1 1 (Real.sin (π / 3)) 1 = 0 ∧
    (tile 1 1 (Real.sin (π / 3)) 1 = [] ∧
    bowl_transducer 0 1 (0, 0, 0) 1 1 (Real.sin (π / 3)) [(0, 0, 0)] "x" =
      some ([], [((0 : ℝ), (0 : ℝ), (0 : ℝ))].map (fun _ => 0))) :=
  ⟨Or.inr rfl, Mtheta_c10,
    mtheta_zero_empty_tiling 0 1 (0, 0, 0) 1 1 (Real.sin (π / 3)) [(0, 0, 0)] "x"
      (Or.inr rfl) Mtheta_c10⟩

/-- Counterexample for C10 as stated: at the very input whose band count
rounds to zero, `bowl_transducer` does not raise a division-by-zero error
— it returns the empty source set and the zero field (the float division
by the int 0 only warns). -/
theorem mtheta_zero_no_raise_cex :
    Mtheta 1 1 (Real.sin (π / 3)) 1 = 0 ∧
    bowl_transducer 0 1 (0, 0, 0) 1 1 (Real.sin (π / 3)) [(0, 0, 0)] "x" =
      some ([], [0]) ∧
    bowl_transducer 0 1 (0, 0, 0) 1 1 (Real.sin (π / 3)) [(0, 0, 0)] "x" ≠ none := by
  have hbowl : bowl_transducer 0 1 (0, 0, 0) 1 1 (Real.sin (π / 3)) [(0, 0, 0)] "x" =
      some ([], [0]) := by
    rw [bowl_transducer_some 0 1 (0, 0, 0) 1 1 (Real.sin (π / 3)) [(0, 0, 0)] "x"
      (Or.inr rfl), tile_c10, orientSources_nil]
    simp [sourceSum]
  refine ⟨Mtheta_c10, hbowl, ?_⟩
  rw [hbowl]
  simp

/-! ## Concrete evaluation: hemisphere bowl, focal length 2, one source -/

lemma theta1_c1 : theta1 2 0 = 0 := by
  unfold theta1
  norm_num [Real.arcsin_zero]

lemma theta2_c1 : theta2 2 2 = π / 2 := by
  unfold theta2
  norm_num [Real.arcsin_one]

lemma a_src_c1 : a_src 2 2 0 1 = 2 * π := by
  unfold a_src
  rw [theta1_c1, theta2_c1, Real.cos_zero, Real.cos_pi_div_two]
  push_cast
  ring

lemma Mtheta_c1 : Mtheta 2 2 0 1 = 1 := by
  unfold Mtheta
  rw [theta1_c1, theta2_c1, a_src_c1, sub_zero]
  have h2π : (0 : ℝ) < 2 * π := by positivity
  have hsp : 0 < Real.sqrt (2 * π) := Real.sqrt_pos.mpr h2π
  set v := (π / 2) / Real.sqrt (2 * π) with hv
  have hlb : 1 / 2 < v := by
    rw [hv, lt_div_iff hsp]
    have hsq : Real.sqrt (2 * π) < π := by
      apply (Real.sqrt_lt' Real.pi_pos).mpr
      nlinarith [Real.pi_gt_three]
    linarith
  have hub : v < 1 := by
    rw [hv, div_lt_one hsp]
    apply (Real.lt_sqrt (by positivity)).mpr
    nlinarith [Real.pi_lt_315, Real.pi_pos]
  have hfloor : ⌊v⌋ = 0 := by
    rw [Int.floor_eq_zero_iff, Set.mem_Ico]
    exact ⟨by linarith, by linarith⟩
  unfold pyRound
  rw [hfloor, Int.cast_zero, sub_zero,
    if_neg (not_lt.mpr hlb.le), if_pos hlb]
  norm_num

lemma bandTheta_c1 : bandTheta 2 2 0 1 0 = π / 4 := by
  unfold bandTheta
  rw [theta1_c1, theta2_c1, Mtheta_c1]
  push_cast
  norm_num
  ring

lemma dTheta_c1 : dTheta 2 2 0 1 = π / 2 := by
  unfold dTheta
  rw [theta1_c1, theta2_c1, Mtheta_c1]
  push_cast
  norm_num

lemma dPhi_c1 : dPhi 2 2 0 1 = 4 := by
  unfold dPhi
  rw [a_src_c1, dTheta_c1]
  field_simp
  ring

lemma Mphi_c1 : Mphi 2 2 0 1 0 = 1 := by
  unfold Mphi
  rw [bandTheta_c1, dPhi_c1, Real.sin_pi_div_four]
  have hs2 : Real.sqrt 2 < 1.5 := by
    apply (Real.sqrt_lt' (by norm_num)).mpr
    norm_num
  have hs2' : 1.4 < Real.sqrt 2 := by
    apply (Real.lt_sqrt (by norm_num)).mpr
    norm_num
  set w := 2 * π * (Real.sqrt 2 / 2) / 4 with hw
  have hub : w < 3 / 2 := by
    rw [hw]
    nlinarith [Real.pi_lt_315, hs2, Real.pi_pos, Real.sqrt_nonneg 2]
  have hlb : 1 ≤ w := by
    rw [hw]
    nlinarith [Real.pi_gt_three, hs2']
  have hfloor : ⌊w⌋ = 1 := by
    rw [Int.floor_eq_iff]
    constructor
    · push_cast
      linarith
    · push_cast
      linarith
  unfold pyRound
  rw [hfloor]
  rw [if_pos (by push_cast; linarith : w - ((1 : ℤ) : ℝ) < 1 / 2)]

lemma srcAt_c1 : srcAt 2 2 0 1 0 0 = (Real.sqrt 2, 0, Real.sqrt 2) := by
  unfold srcAt
  rw [bandTheta_c1, Mphi_c1]
  have hφ : 2 * π * ((0 : ℕ) : ℝ) / (((1 : ℤ) : ℝ)) = 0 := by
    push_cast
    ring
  rw [hφ, Real.cos_zero, Real.sin_zero, Real.sin_pi_div_four, Real.cos_pi_div_four]
  simp only [Prod.mk.injEq]
  refine ⟨by ring, by ring, by ring⟩

lemma tile_c1 : tile 2 2 0 1 = [(Real.sqrt 2, 0, Real.sqrt 2)] := by
  unfold tile
  rw [Mtheta_c1, show List.range (1 : ℤ).toNat = [0] from rfl]
  simp only [List.map_cons, List.map_nil]
  rw [Mphi_c1, show List.range (1 : ℤ).toNat = [0] from rfl]
  simp only [List.map_cons, List.map_nil]
  rw [srcAt_c1]
  rfl

lemma orient_x_c1 : orientSources "x" (0, 0, 0) (tile 2 2 0 1) =
    [(-Real.sqrt 2, -Real.sqrt 2, 0)] := by
  rw [tile_c1]
  show [((0 : ℝ) - Real.sqrt 2, -Real.sqrt 2, -(0 : ℝ))] =
    [(-Real.sqrt 2, -Real.sqrt 2, 0)]
  norm_num

lemma dist_c1 : distP (-Real.sqrt 2, -Real.sqrt 2, 0) (0, 0, 0) = 2 := by
  unfold distP
  have h2 : Real.sqrt 2 ^ 2 = 2 := Real.sq_sqrt (by norm_num)
  have h : ((0 : ℝ) - -Real.sqrt 2) ^ 2 + ((0 : ℝ) - -Real.sqrt 2) ^ 2 +
      ((0 : ℝ) - 0) ^ 2 = 4 := by
    linear_combination 2 * h2
  rw [h]
  rw [show (4 : ℝ) = 2 ^ 2 by norm_num, Real.sqrt_sq (by norm_num)]

lemma green_c1 : greenTerm 0 (-Real.sqrt 2, -Real.sqrt 2, 0) (0, 0, 0) =
    1 / (8 * (π : ℂ)) := by
  unfold greenTerm
  rw [dist_c1, if_pos (by norm_num : (1e-3 : ℝ) < 2)]
  have h0 : Complex.I * 0 * ((2 : ℝ) : ℂ) = 0 := by ring
  rw [h0, Complex.exp_zero]
  push_cast
  ring

lemma bowl_c1 : bowl_transducer 0 2 (0, 0, 0) 2 1 0 [(0, 0, 0)] "x" =
    some ([(-Real.sqrt 2, -Real.sqrt 2, 0)], [1 / 4]) := by
  rw [bowl_transducer_some 0 2 (0, 0, 0) 2 1 0 [(0, 0, 0)] "x" (Or.inr rfl),
    orient_x_c1]
  simp only [List.map_cons, List.map_nil]
  unfold sourceSum
  simp only [List.map_cons, List.map_nil, List.sum_cons, List.sum_nil, add_zero,
    green_c1, a_src_c1]
  have hπ : ((π : ℝ) : ℂ) ≠ 0 := Complex.ofReal_ne_zero.mpr Real.pi_ne_zero
  have hval : (1 / (8 * (π : ℂ))) * (((2 * π : ℝ)) : ℂ) = 1 / 4 := by
    push_cast
    field_simp
    ring
  rw [hval]

/-- C1 (amended).  For every wavenumber, (non-degenerate) bowl geometry
and observation set, and for the supported orientations — an `axis`
matching the `'z'` or `'x'` substring test; any other axis makes the
jitted evaluation raise — `bowl_transducer` returns at each observation
point `a * sum_j exp(i*k*d_j)/(4*pi*d_j)` over all generated
(re-oriented) sources, with pairs at distance at or below `1e-3`
contributing zero; the common weight `a` is the code's
`2*pi*1^2*(cos(theta1)-cos(theta2))/n_elements`, the per-source area
element of the UNIT sphere's cap band — not of the bowl surface of
radius `focal_length` (that would carry an extra `focal_length^2`
factor). -/
theorem bowl_pressure_formula (k : ℂ) (F : ℝ) (focus : ℝ × ℝ × ℝ) (R : ℝ)
    (n : ℕ) (ap : ℝ) (points : List (ℝ × ℝ × ℝ)) (axis : String)
    (haxis : pyIn axis "z" = true ∨ pyIn axis "x" = true)
    (hap : 0 ≤ ap) (hapR : ap < R) (hRF : R ≤ F) :
    bowl_transducer k F focus R n ap points axis =
      some (orientSources axis focus (tile F R ap n),
        points.map (fun pt =>
          sourceSum k (orientSources axis focus (tile F R ap n)) pt *
            ((a_src F R ap n : ℝ) : ℂ))) ∧
    (∀ s pt, distP s pt ≤ 1e-3 → greenTerm k s pt = 0) ∧
    a_src F R ap n =
      2 * π * 1 ^ 2 * (Real.cos (theta1 F ap) - Real.cos (theta2 F R)) / n := by
  refine ⟨bowl_transducer_some k F focus R n ap points axis haxis, ?_, rfl⟩
  intro s pt hd
  rw [greenTerm, if_neg (not_lt.mpr hd)]

/-- Witness for `bowl_pressure_formula`: hemisphere bowl of focal length 2
and a single source, axis `'x'`, evaluated at the origin. -/
theorem bowl_pressure_formula_witness :
    (pyIn "x" "z" = true ∨ pyIn "x" "x" = true) ∧
    (0 : ℝ) ≤ 0 ∧ (0 : ℝ) < 2 ∧ (2 : ℝ) ≤ 2 ∧
    (bowl_transducer 0 2 (0, 0, 0) 2 1 0 [(0, 0, 0)] "x" =
      some (orientSources "x" (0, 0, 0) (tile 2 2 0 1),
        [((0 : ℝ), (0 : ℝ), (0 : ℝ))].map (fun pt =>
          sourceSum 0 (orientSources "x" (0, 0, 0) (tile 2 2 0 1)) pt *
            ((a_src 2 2 0 1 : ℝ) : ℂ))) ∧
    (∀ s pt, distP s pt ≤ 1e-3 → greenTerm 0 s pt = 0) ∧
    a_src 2 2 0 1 =
      2 * π * 1 ^ 2 * (Real.cos (theta1 2 0) - Real.cos (theta2 2 2)) / (1 : ℕ)) :=
  ⟨Or.inr rfl, le_refl 0, by norm_num, le_refl 2,
    bowl_pressure_formula 0 2 (0, 0, 0) 2 1 0 [(0, 0, 0)] "x" (Or.inr rfl)
      (le_refl 0) (by norm_num) (le_refl 2)⟩

/-- Counterexample for C1 as stated: at wavenumber 0, focal length 2,
outer radius 2, no aperture, one requested source and axis `'x'`, the
returned pressure at the origin is `1/4`, while the claimed formula with
`a` taken as the bowl-surface cap area per source
(`2*pi*focal_length^2*(cos(theta1)-cos(theta2))/n`) gives `1`; the code
weights by the unit-sphere area element instead. -/
theorem bowl_area_weight_cex :
    bowl_transducer 0 2 (0, 0, 0) 2 1 0 [(0, 0, 0)] "x" =
      some ([(-Real.sqrt 2, -Real.sqrt 2, 0)], [1 / 4]) ∧
    ((bowlCapAreaPerSource 2 2 0 1 : ℝ) : ℂ) *
        sourceSum 0 [(-Real.sqrt 2, -Real.sqrt 2, 0)] ((0 : ℝ), (0 : ℝ), (0 : ℝ)) = 1 ∧
    (1 / 4 : ℂ) ≠ 1 := by
  refine ⟨bowl_c1, ?_, by norm_num⟩
  have hb : bowlCapAreaPerSource 2 2 0 1 = 8 * π := by
    unfold bowlCapAreaPerSource
    rw [theta1_c1, theta2_c1, Real.cos_zero, Real.cos_pi_div_two]
    push_cast
    ring
  have hss : sourceSum 0 [(-Real.sqrt 2, -Real.sqrt 2, 0)] ((0 : ℝ), (0 : ℝ), (0 : ℝ)) =
      1 / (8 * (π : ℂ)) := by
    unfold sourceSum
    simp only [List.map_cons, List.map_nil, List.sum_cons, List.sum_nil, add_zero, green_c1]
  rw [hb, hss]
  have hπ : ((π : ℝ) : ℂ) ≠ 0 := Complex.ofReal_ne_zero.mpr Real.pi_ne_zero
  push_cast
  field_simp

set_option maxRecDepth 4000 in
/-- C4.  `normalise_power` returns exactly
`sqrt(2*rho*c0*power / integral)` with
`integral = 2*pi*(sum_i |p(r_i)|^2 * r_i)*R/500`, where the 500 radial
samples are the equally spaced `r_i = R*i/499` from `0` to `R` and `p` is
the unit-amplitude synthesized field on the calibration disk (evaluated
with the real part of `k1`). -/
theorem normalise_power_quadrature (power rho c0 R : ℝ) (k1 : ℂ) (F : ℝ)
    (focus : ℝ × ℝ × ℝ) (n : ℕ) (ap : ℝ) (hM : Mtheta F R ap n ≠ 0) :
    normalise_power power rho c0 R k1 F focus n ap =
      some (Real.sqrt (2 * rho * c0 * power /
        (2 * π * (∑ i ∈ Finset.range 500,
            Complex.abs (diskPressure R k1 F focus n ap i) ^ 2 * (R * (i : ℝ) / 499)) *
          R / 500))) := by
  unfold normalise_power
  dsimp only
  rw [bowl_transducer_some _ F focus R n ap _ "x" (Or.inr rfl)]
  rw [Option.map_some']
  congr 1
  unfold p0_of
  congr 2
  unfold quadIntegral diskPressure
  rw [linspaceL_eq, List.map_map, List.map_map, List.zip_map', List.map_map,
    range_map_sum]
  rw [show R * 1.0 = R by norm_num]
  rfl

/-- Witness for `normalise_power_quadrature`: hemisphere bowl of focal
length 2 with a single source. -/
theorem normalise_power_quadrature_witness :
    Mtheta 2 2 0 1 ≠ 0 ∧
    normalise_power 1 1 1 2 0 2 (0, 0, 0) 1 0 =
      some (Real.sqrt (2 * 1 * 1 * 1 /
        (2 * π * (∑ i ∈ Finset.range 500,
            Complex.abs (diskPressure 2 0 2 (0, 0, 0) 1 0 i) ^ 2 * (2 * (i : ℝ) / 499)) *
          2 / 500))) := by
  have hM : Mtheta 2 2 0 1 ≠ 0 := by
    rw [Mtheta_c1]
    norm_num
  exact ⟨hM, normalise_power_quadrature 1 1 1 2 0 2 (0, 0, 0) 1 0 hM⟩
